import Mathlib

/-!
Verification of the Laghost Lagrangian hydrodynamics core.

This file gives a shallow embedding, over exact rationals, of the parts of
the code that the specification talks about:

* the adaptive time-step control block of the driver loop
  (main, the block following the call of the ODE solver);
* the per-quadrature-point stable time-step estimation of
  LagrangianHydroOperator::UpdateQuadratureData(S, dt) together with the
  MPI reduction in GetTimeStepEstimate;
* the stress / stress-rate tensor computations of the full-assembly path of
  UpdateQuadratureData(S, dt) and of the partial-assembly kernel
  QUpdateBody (dt variant);
* the call sequence of LagrangianHydroOperator::Mult and RK2AvgSolver::Step;
* the quadrature-cache freshness protocol (qdata_is_current);
* Getdamping and the velocity right-hand side of SolveVelocity.

Doubles are modelled as rationals (exact arithmetic, total division with
x / 0 = 0); MPI reductions are modelled as folds over the list of per-rank
values.
-/

namespace Laghost

/-! ## Adaptive time-step driver (main, time loop)

Models the block after `ode_solver->Step(S, t, dt)`:
the snapshot was taken before the step (`S_old = S; t_old = t`), the ODE
solver advanced `t` by `dt`, and then the control block inspects the
estimate `dt_est` returned by `GetTimeStepEstimate(S, dt)`. -/

/-- Events emitted by the driver control block, in order.  The VisIt and
ParaView saves model the checkpoint flushes guarded by `param.sim.visit`
and `param.sim.paraview`; `abortRun` models `MFEM_ABORT`. -/
inductive Ev where
  | saveVisit
  | saveParaview
  | abortRun
deriving DecidableEq, Repr

/-- Outcome of one pass of the driver control block for a trial step.
`aborted` carries the emitted event trace.  `retried` carries the new trial
`dt`, the restored time and state, whether `ResetQuadratureData` was
called, the (unchanged) step index, and the new `last_step` flag.
`accepted` carries the `dt` kept for the next step, the advanced time, the
accepted state and the incremented step index. -/
inductive StepOutcome (σ : Type) where
  | aborted (events : List Ev)
  | retried (dt t : ℚ) (S : σ) (cacheInvalidated : Bool) (ti : ℕ) (lastStep : Bool)
  | accepted (dt t : ℚ) (S : σ) (ti : ℕ)
deriving DecidableEq, Repr

/-- Is the outcome an abort? -/
def StepOutcome.isAborted {σ : Type} : StepOutcome σ → Bool
  | .aborted _ => true
  | _ => false

/-- Is the outcome an acceptance? -/
def StepOutcome.isAccepted {σ : Type} : StepOutcome σ → Bool
  | .accepted _ _ _ _ => true
  | _ => false

/-- The absolute time-step floor `1.0E-38` of the driver. -/
def dtFloor : ℚ := 1 / 10 ^ 38

/-- The checkpoint flushes performed just before `MFEM_ABORT`: the VisIt
save if `param.sim.visit` is set, then the ParaView save if
`param.sim.paraview` is set. -/
def abortEvents (visit paraview : Bool) : List Ev :=
  (if visit then [Ev.saveVisit] else []) ++
  (if paraview then [Ev.saveParaview] else []) ++ [Ev.abortRun]

/-- Embedding of the adaptive time-step control block of the driver
(main).  Arguments: `meshChanged` is the remesh flag tested first;
`dtEst` is the global stable-dt estimate; `dt` is the step just taken;
`tOld`, `SOld` are the pre-step snapshot; `STrial` is the state produced by
the ODE step; `visit`, `paraview`, `maxTsteps`, `steps`, `ti`, `lastStep`
are the checkpoint flags and loop counters.  The ODE solver already set
`t = tOld + dt`; on rejection `t = t_old; S = S_old;` restores the
snapshot, `geo.ResetQuadratureData()` invalidates the cache and `ti--`
followed by the loop increment retries the same index. -/
def driverControl {σ : Type} (meshChanged : Bool) (dtEst dt tOld : ℚ)
    (SOld STrial : σ) (visit paraview : Bool) (steps maxTsteps ti : ℕ)
    (lastStep : Bool) : StepOutcome σ :=
  if meshChanged then
    StepOutcome.accepted dt (tOld + dt) STrial (ti + 1)
  else if dtEst < dt then
    let dtHalf := dt * (1 / 2)
    if dtHalf < dtFloor then
      StepOutcome.aborted (abortEvents visit paraview)
    else
      StepOutcome.retried dtHalf tOld SOld true ti
        (if steps < maxTsteps then false else lastStep)
  else if dtEst > (5 / 4) * dt then
    StepOutcome.accepted (dt * (51 / 50)) (tOld + dt) STrial (ti + 1)
  else
    StepOutcome.accepted dt (tOld + dt) STrial (ti + 1)

/-! ## Stable time-step estimation at quadrature points

Full-assembly path of `LagrangianHydroOperator::UpdateQuadratureData(S, dt)`:
elements are processed in batches; within a batch the minimum Jacobian
determinant is computed, and then every quadrature point of the batch
updates the running estimate `qdata.dt_est`. -/

/-- Data of one quadrature point that the stable-dt computation reads:
the determinant of the current Jacobian, the integration weight, the
reference density-weighted volume `rho0DetJ0w`, the sound speed and the
artificial-viscosity coefficient produced upstream, and the smallest
singular value of the current Jacobian. -/
structure QPoint where
  detJ : ℚ
  weight : ℚ
  rho0DetJ0w : ℚ
  soundSpeed : ℚ
  viscCoeff : ℚ
  sv : ℚ
deriving DecidableEq, Repr

/-- Density at the point: `rho = rho0DetJ0w / detJ / weight`. -/
def rhoAt (p : QPoint) : ℚ := p.rho0DetJ0w / p.detJ / p.weight

/-- Length scale `h_min = CalcSingularvalue(dim-1) / order`: the smallest
singular value of the reference-to-physical Jacobian over the kinematic
polynomial order. -/
def hMin (order : ℚ) (p : QPoint) : ℚ := p.sv / order

/-- The inverse-rate
`inv_dt = sound_speed / h_min + 2.5 * visc_coeff / rho / h_min / h_min`. -/
def invDt (order : ℚ) (p : QPoint) : ℚ :=
  p.soundSpeed / hMin order p +
    (5 / 2) * p.viscCoeff / rhoAt p / hMin order p / hMin order p

/-- The candidate local bound `cfl * (1.0 / inv_dt)`. -/
def dtBound (cfl order : ℚ) (p : QPoint) : ℚ := cfl * (1 / invDt order p)

/-- Whether the batch contains a quadrature point with strictly negative
Jacobian determinant; equivalent to `min_detJ < 0.0` for the running
minimum started at infinity. -/
def batchHasNegDetJ (batch : List QPoint) : Bool :=
  batch.any (fun p => p.detJ < 0)

/-- Update of the running estimate at one quadrature point: if the batch
minimum determinant is negative the estimate is forced to zero, otherwise
the bound is folded in only when the inverse-rate is strictly positive. -/
def pointDtUpdate (cfl order : ℚ) (negBatch : Bool) (est : ℚ)
    (p : QPoint) : ℚ :=
  if negBatch then 0
  else if invDt order p > 0 then min est (dtBound cfl order p)
  else est

/-- Processing of one batch: every point of the batch updates the running
estimate, all of them seeing the same batch-minimum determinant flag. -/
def batchDtUpdate (cfl order : ℚ) (est : ℚ) (batch : List QPoint) : ℚ :=
  batch.foldl (pointDtUpdate cfl order (batchHasNegDetJ batch)) est

/-- A rank's local `qdata.dt_est` after one refresh: fold of all batches
starting from the current value of the running estimate (set to infinity
by `ResetTimeStepEstimate`, modelled as the parameter `init`). -/
def rankDtEstimate (cfl order : ℚ) (init : ℚ)
    (batches : List (List QPoint)) : ℚ :=
  batches.foldl (batchDtUpdate cfl order) init

/-- One MPI rank: its running-estimate initial value and its elements
partitioned into batches of quadrature points. -/
structure Rank where
  init : ℚ
  batches : List (List QPoint)

/-- Embedding of `GetTimeStepEstimate(S, dt)`: each rank refreshes its
quadrature data, then `MPI_Allreduce(..., MPI_MIN, ...)` reduces the
per-rank values; modelled as the fold of `min` over the per-rank results
(zero for the degenerate empty communicator, which never occurs). -/
def GetTimeStepEstimate (cfl order : ℚ) (ranks : List Rank) : ℚ :=
  match ranks.map (fun r => rankDtEstimate cfl order r.init r.batches) with
  | [] => 0
  | x :: xs => xs.foldl min x

/-- All quadrature points of all batches of all ranks. -/
def allPoints (ranks : List Rank) : List QPoint :=
  (ranks.map (fun r => r.batches.flatten)).flatten

/-! ## Small dense matrices

`DenseMatrix` values of size `dim` are modelled as functions
`Fin n → Fin n → ℚ`. -/

/-- Square rational matrix of size `n`, row index first. -/
def Mat (n : ℕ) : Type := Fin n → Fin n → ℚ

instance (n : ℕ) : DecidableEq (Mat n) := by
  unfold Mat; infer_instance

/-- Entrywise sum, as in `DenseMatrix::Add(1.0, ...)`. -/
def matAdd {n : ℕ} (A B : Mat n) : Mat n := fun i j => A i j + B i j

/-- Entrywise difference, as in `DenseMatrix::Add(-1.0, ...)`. -/
def matSub {n : ℕ} (A B : Mat n) : Mat n := fun i j => A i j - B i j

/-- Scalar multiple, as in `DenseMatrix::Set(c, ...)` and `operator*=`. -/
def matSmul {n : ℕ} (c : ℚ) (A : Mat n) : Mat n := fun i j => c * A i j

/-- Matrix product, as in `mfem::Mult(A, B, C)`. -/
def matMul {n : ℕ} (A B : Mat n) : Mat n := fun i j => ∑ k, A i k * B k j

/-- Trace of a square matrix. -/
def matTrace {n : ℕ} (A : Mat n) : ℚ := ∑ i, A i i

/-- The identity matrix, as built by `for d: tau1(d, d) = 1.0`. -/
def idMat (n : ℕ) : Mat n := fun i j => if i = j then 1 else 0

/-- The zero matrix. -/
def zeroMat (n : ℕ) : Mat n := fun _ _ => 0

/-- Symmetric part, as in `DenseMatrix::Symmetrize`: `(A + Aᵀ) / 2`. -/
def symmetrize {n : ℕ} (A : Mat n) : Mat n := fun i j => (A i j + A j i) / 2

/-- The strain rate: the velocity gradient, symmetrized
(`srate = sgrad_v; srate.Symmetrize()`). -/
def srateOf {n : ℕ} (g : Mat n) : Mat n := symmetrize g

/-- The spin: the velocity gradient minus its symmetric part
(`spin = sgrad_v; spin.Add(-1.0, srate)`). -/
def spinOf {n : ℕ} (g : Mat n) : Mat n := matSub g (srateOf g)

/-! ## Stress-rate and stress tensors of the full-assembly path

Embedding of the tensor computations of the quadrature loop of
`LagrangianHydroOperator::UpdateQuadratureData(S, dt)` (full-assembly
path).  All tensor work happens inside `if (use_viscosity)`; outside it
`stress` and `tau0` keep their zero initialization. -/

/-- The stress-rate tensor `tau0` of the full-assembly path:
`tau0.Set(2*lame2, srate); tau1.Set(2*lame1*srate.Trace()/dim, tau1);`
(`tau1` being the identity);
`tau0.Add(1.0, tau1); mfem::Mult(old_sig, spin, crot1);
mfem::Mult(spin, old_sig, crot2); tau0.Add(1.0, crot1);
tau0.Add(-1.0, crot2)`. -/
def faTau0 (n : ℕ) (useViscosity : Bool) (lame1 lame2 : ℚ)
    (sgradV oldSig : Mat n) : Mat n :=
  if useViscosity then
    let srate := srateOf sgradV
    let spin := spinOf sgradV
    let tau0 := matSmul (2 * lame2) srate
    let tau1 := matSmul (2 * lame1 * matTrace srate / (n : ℚ)) (idMat n)
    let tau0 := matAdd tau0 tau1
    let crot1 := matMul oldSig spin
    let crot2 := matMul spin oldSig
    matSub (matAdd tau0 crot1) crot2
  else zeroMat n

/-- The value written into the stress-rate-flux cache `qdata.tauJinvT`:
`tau0 *= rho * ir.IntPoint(q).weight * detJ` followed by
`qdata.tauJinvT(vd)(z_id*nqp + q, gd) = tau0(vd, gd)`. -/
def faTauJinvT (n : ℕ) (useViscosity : Bool) (lame1 lame2 : ℚ)
    (rho weight detJ : ℚ) (sgradV oldSig : Mat n) : Mat n :=
  matSmul (rho * weight * detJ) (faTau0 n useViscosity lame1 lame2 sgradV oldSig)

/-- The stress tensor assembled for the force operator in the
full-assembly path: initialized to zero (its diagonal is set to `0`, the
`-p` variant being disabled), then inside `if (use_viscosity)`:
`stress.Add(visc_coeff, sgrad_v); stress.Add(1.0, old_sig)`. -/
def faStress (n : ℕ) (useViscosity : Bool) (viscCoeff : ℚ)
    (sgradV oldSig : Mat n) : Mat n :=
  if useViscosity then matAdd (matAdd (zeroMat n) (matSmul viscCoeff sgradV)) oldSig
  else zeroMat n

/-! ## Stress rate of the partial-assembly kernel (QUpdateBody, dt variant) -/

/-- The hard-coded shear modulus `double d_mu{1e-1}` of `QUpdateBody`. -/
def paDMu : ℚ := 1 / 10

/-- The stress deviator rate computed by `QUpdateBody` inside
`if (use_viscosity)`:
`kernels::Set(DIM, DIM, -2*d_mu*div_vel/3, tau0, tau0)` with `tau0` the
identity, `kernels::Set(DIM, DIM, 2*d_mu, sgrad_v, tau1)` with `sgrad_v`
symmetrized, then `kernels::Add(DIM, DIM, tau1, tau0)`; the spin-coupling
block that follows is commented out.  Note the division by the literal `3`
for every dimension. -/
def paTau0 (n : ℕ) (useViscosity : Bool) (sgradV : Mat n) : Mat n :=
  if useViscosity then
    let srate := srateOf sgradV
    let divVel := matTrace srate
    let tau0 := matSmul (-2 * paDMu * divVel / 3) (idMat n)
    let tau1 := matSmul (2 * paDMu) srate
    matAdd tau1 tau0
  else idMat n

/-- The value written into the stress-rate-flux cache by `QUpdateBody`:
after `tau0[k] *= R * weight * detJ`, the write-back is the literal
`d_tauJinvT[offset] = 0.0;` for every velocity and gradient component of
every quadrature point of every element. -/
def paTauJinvT (n : ℕ) (_useViscosity : Bool) (_R _weight _detJ : ℚ)
    (_sgradV : Mat n) : Mat n :=
  zeroMat n

/-! ## Call sequences of Mult and RK2AvgSolver::Step -/

/-- The operations visible at the granularity of the rate-evaluator
contract. -/
inductive RateOp where
  | syncMesh
  | setPositionRate
  | velocityUpdate
  | energyUpdate
  | stressRateUpdate
  | markCacheStale
  | resetCache
  | averageVelocity
  | advanceState
  | advanceTime
deriving DecidableEq, Repr

/-- The call sequence of `LagrangianHydroOperator::Mult(S, dS_dt, dt)`:
`UpdateMesh(S); dx = v; SolveVelocity(S, dS_dt, dt);
SolveEnergy(S, v, dS_dt, dt); qdata_is_current = false;`. -/
def multSteps : List RateOp :=
  [RateOp.syncMesh, RateOp.setPositionRate, RateOp.velocityUpdate,
   RateOp.energyUpdate, RateOp.markCacheStale]

/-- The sequence the specification prescribes for `Mult` (steps (1)-(6) of
the public contract), used only for comparison with `multSteps`. -/
def specMultSteps : List RateOp :=
  [RateOp.syncMesh, RateOp.setPositionRate, RateOp.velocityUpdate,
   RateOp.energyUpdate, RateOp.stressRateUpdate, RateOp.markCacheStale]

/-- The call sequence of `RK2AvgSolver::Step(S, t, dt)`: two stages of
`UpdateMesh; SolveVelocity; add -> V; SolveEnergy; SolveStress;
dx_dt = V`, an update of `S` and a `ResetQuadratureData` between and after
the stages, and the final `t += dt`. -/
def rk2AvgStepSteps : List RateOp :=
  [RateOp.syncMesh, RateOp.velocityUpdate, RateOp.averageVelocity,
   RateOp.energyUpdate, RateOp.stressRateUpdate, RateOp.setPositionRate,
   RateOp.advanceState, RateOp.resetCache,
   RateOp.syncMesh, RateOp.velocityUpdate, RateOp.averageVelocity,
   RateOp.energyUpdate, RateOp.stressRateUpdate, RateOp.setPositionRate,
   RateOp.advanceState, RateOp.resetCache, RateOp.advanceTime]

/-! ## The quadrature-cache freshness protocol

State of the flags owned by `LagrangianHydroOperator`, together with a
counter of how many times the quadrature kernel actually ran. -/

/-- Flag state of the operator: `qdata_is_current`,
`forcemat_is_assembled`, and a counter of performed kernel refreshes. -/
structure QState where
  qdataIsCurrent : Bool
  forcematIsAssembled : Bool
  refreshes : ℕ
deriving DecidableEq, Repr

/-- Effect of `UpdateQuadratureData(S, dt)` on the flags: an immediate
return when the cache is current, otherwise the flags are set and the
kernel body runs (counted as one refresh). -/
def UpdateQuadratureDataQ (s : QState) : QState :=
  if s.qdataIsCurrent then s
  else { qdataIsCurrent := true, forcematIsAssembled := false,
         refreshes := s.refreshes + 1 }

/-- Effect of `AssembleForceMatrix` on the flags. -/
def AssembleForceQ (s : QState) : QState :=
  if s.forcematIsAssembled then s
  else { s with forcematIsAssembled := true }

/-- Flag effect of `SolveVelocity`: it calls `UpdateQuadratureData` first,
then `AssembleForceMatrix`. -/
def SolveVelocityQ (s : QState) : QState := AssembleForceQ (UpdateQuadratureDataQ s)

/-- Flag effect of `SolveEnergy`: it calls `UpdateQuadratureData` first,
then `AssembleForceMatrix`. -/
def SolveEnergyQ (s : QState) : QState := AssembleForceQ (UpdateQuadratureDataQ s)

/-- Flag effect of `SolveStress`: it calls `UpdateQuadratureData` first. -/
def SolveStressQ (s : QState) : QState := UpdateQuadratureDataQ s

/-- Flag effect of `Mult`: `SolveVelocity`, then `SolveEnergy`, then
`qdata_is_current = false`. -/
def MultQ (s : QState) : QState :=
  { SolveEnergyQ (SolveVelocityQ s) with qdataIsCurrent := false }

/-- Flag effect of `ResetQuadratureData`.  Modelled from the spec: the
body of `ResetQuadratureData` is not among the provided sources (only its
call sites are); the spec states the freshness flag is set false on
explicit reset, used by the driver after a rollback. -/
def ResetQuadratureDataQ (s : QState) : QState :=
  { s with qdataIsCurrent := false }

/-! ## Damping and the velocity right-hand side -/

/-- Embedding of `LagrangianHydroOperator::Getdamping(S, v_damping)`: for
every degree of freedom `i` of the velocity block,
`_v_damping[i] = 0.00 * fabs(_v_damping[i])` when `v[i] >= 0` and
`_v_damping[i] = -0.00 * fabs(_v_damping[i])` otherwise. -/
def Getdamping (v damping : List ℚ) : List ℚ :=
  List.zipWith (fun vi di => if 0 ≤ vi then 0.00 * |di| else -0.00 * |di|)
    v damping

/-- Embedding of the right-hand side built by the full-assembly branch of
`SolveVelocity`: `Force.Mult(one, rhs); rhs.Neg();` then
`v_damping = 0.0; v_damping.Add(1.0, rhs); Getdamping(S, v_damping);
rhs.Add(-1.0, v_damping);` and, only when `source_type == 2`, the
acceleration source is added.  `forceTimesOne` is the assembled force
operator applied to the all-ones vector, `accel` the acceleration source
term. -/
def SolveVelocityRhs (sourceType : ℤ) (forceTimesOne v accel : List ℚ) :
    List ℚ :=
  let rhs := forceTimesOne.map (fun x => -x)
  let vDamping := Getdamping v rhs
  let rhs := List.zipWith (fun a b => a - b) rhs vDamping
  if sourceType = 2 then List.zipWith (· + ·) rhs accel else rhs

/-! ## Helper lemmas on folds of min -/

/-- A min fold is bounded by its initial value. -/
lemma foldl_min_le_init (l : List ℚ) (a : ℚ) : l.foldl min a ≤ a := by
  induction l generalizing a with
  | nil => exact le_refl a
  | cons x xs ih => exact le_trans (ih (min a x)) (min_le_left a x)

/-- A min fold is bounded by every member of the list. -/
lemma foldl_min_le_mem {l : List ℚ} {b : ℚ} (a : ℚ) (hb : b ∈ l) :
    l.foldl min a ≤ b := by
  induction l generalizing a with
  | nil => cases hb
  | cons x xs ih =>
    rcases List.mem_cons.mp hb with h | h
    · subst h
      exact le_trans (foldl_min_le_init xs (min a b)) (min_le_right a b)
    · exact ih (min a x) h

/-- A min fold returns its initial value or a member of the list. -/
lemma foldl_min_init_or_mem (l : List ℚ) (a : ℚ) :
    l.foldl min a = a ∨ l.foldl min a ∈ l := by
  induction l generalizing a with
  | nil => exact Or.inl rfl
  | cons x xs ih =>
    rcases ih (min a x) with h | h
    · rcases min_cases a x with ⟨hm, _⟩ | ⟨hm, _⟩
      · exact Or.inl (h.trans hm)
      · exact Or.inr (by
          rw [List.foldl_cons, h, hm]; exact List.mem_cons_self x xs)
    · exact Or.inr (List.mem_cons_of_mem x h)

/-- A common lower bound of the initial value and the list members bounds
the min fold from below. -/
lemma le_foldl_min {l : List ℚ} {a c : ℚ} (ha : c ≤ a)
    (hl : ∀ b ∈ l, c ≤ b) : c ≤ l.foldl min a := by
  induction l generalizing a with
  | nil => exact ha
  | cons x xs ih =>
    exact ih (le_min ha (hl x (List.mem_cons_self x xs)))
      (fun b hb => hl b (List.mem_cons_of_mem x hb))

/-! ## C1: the call sequence of Mult -/

/-- C1 counterexample: the claim says `Mult` performs, in order, mesh
synchronization, the position-rate assignment, the velocity update, the
energy update, the stress-rate update, and the cache-stale marking.  The
code performs no stress-rate update inside `Mult`: its call sequence
differs from the claimed one, and `SolveStress` is absent from it. -/
theorem C1_mult_skips_stress_counterexample :
    multSteps ≠ specMultSteps ∧ RateOp.stressRateUpdate ∉ multSteps := by
  constructor
  · decide
  · decide

/-- C1 amended: `Mult(S, dt)` performs exactly the claimed sequence with
the stress-rate update removed — synchronize mesh, set the position rate
to velocity, velocity update, energy update, mark the cache stale.  The
stress-rate update is instead invoked directly by `RK2AvgSolver::Step`,
right after the energy update, in each of its two stages. -/
theorem C1_mult_sequence :
    multSteps = specMultSteps.erase RateOp.stressRateUpdate ∧
    RateOp.stressRateUpdate ∉ multSteps ∧
    rk2AvgStepSteps.count RateOp.stressRateUpdate = 2 ∧
    [RateOp.energyUpdate, RateOp.stressRateUpdate] <:+: rk2AvgStepSteps := by
  refine ⟨by decide, by decide, by decide, ?_⟩
  exact ⟨[RateOp.syncMesh, RateOp.velocityUpdate, RateOp.averageVelocity],
    [RateOp.setPositionRate, RateOp.advanceState, RateOp.resetCache,
     RateOp.syncMesh, RateOp.velocityUpdate, RateOp.averageVelocity,
     RateOp.energyUpdate, RateOp.stressRateUpdate, RateOp.setPositionRate,
     RateOp.advanceState, RateOp.resetCache, RateOp.advanceTime], rfl⟩

/-! ## C2 and C5: the adaptive-step driver transition -/

/-- C2 counterexample: the claim says the transition on `(dt_est, dt)` is
exactly three-way, the first branch always restoring the snapshot and
retrying.  At `dt_est = 0 < dt = 10⁻³⁹` the code halves `dt` below the
`1e-38` floor and aborts instead of retrying; and when a remesh just
happened the estimate is ignored entirely: `dt_est = 0 < dt = 1` is
accepted. -/
theorem C2_three_way_counterexample :
    (0 : ℚ) < 1 / 10 ^ 39 ∧
    (driverControl (σ := Unit) false 0 (1 / 10 ^ 39) 0 () () false false
      0 10 3 false).isAborted = true ∧
    (0 : ℚ) < 1 ∧
    (driverControl (σ := Unit) true 0 1 0 () () false false
      0 10 3 false).isAccepted = true := by
  refine ⟨by norm_num, ?_, by norm_num, ?_⟩
  · norm_num [driverControl, dtFloor, StepOutcome.isAborted]
  · norm_num [driverControl, StepOutcome.isAccepted]

/-- C2 amended: when no remesh just occurred, the transition on
`(dt_est, dt)` is: if the estimate is below the `dt` just taken, `dt` is
halved and, provided the halved `dt` is still at least `1e-38`, the
pre-step snapshot of state and time is restored, the quadrature cache is
invalidated, and the same step index is retried with no progress (below
the floor the run aborts instead, per C5); otherwise if the estimate
exceeds `1.25` times `dt`, the step is accepted with `dt` grown by `2%`;
otherwise the step is accepted with `dt` unchanged and time advanced by
`dt`. -/
theorem C2_driver_transition {σ : Type} (dtEst dt tOld : ℚ) (SOld STrial : σ)
    (visit paraview : Bool) (steps maxTsteps ti : ℕ) (lastStep : Bool) :
    (dtEst < dt → dtFloor ≤ dt * (1 / 2) →
      driverControl false dtEst dt tOld SOld STrial visit paraview steps
          maxTsteps ti lastStep =
        StepOutcome.retried (dt * (1 / 2)) tOld SOld true ti
          (if steps < maxTsteps then false else lastStep)) ∧
    (¬ dtEst < dt → dtEst > (5 / 4) * dt →
      driverControl false dtEst dt tOld SOld STrial visit paraview steps
          maxTsteps ti lastStep =
        StepOutcome.accepted (dt * (51 / 50)) (tOld + dt) STrial (ti + 1)) ∧
    (¬ dtEst < dt → ¬ dtEst > (5 / 4) * dt →
      driverControl false dtEst dt tOld SOld STrial visit paraview steps
          maxTsteps ti lastStep =
        StepOutcome.accepted dt (tOld + dt) STrial (ti + 1)) := by
  refine ⟨fun h1 h2 => ?_, fun h1 h2 => ?_, fun h1 h2 => ?_⟩
  · simp only [driverControl, Bool.false_eq_true, if_false, if_pos h1,
      if_neg (not_lt.mpr h2)]
  · simp only [driverControl, Bool.false_eq_true, if_false, if_neg h1,
      if_pos h2]
  · simp only [driverControl, Bool.false_eq_true, if_false, if_neg h1,
      if_neg h2]

/-- C2 witness: a rejected step with the halved dt above the floor is
retried at the same index with the snapshot restored and the cache
invalidated. -/
theorem C2_driver_transition_witness :
    driverControl (σ := Unit) false 1 2 0 () () false false 0 10 3 false =
      StepOutcome.retried 1 0 () true 3 false := by
  have h := (C2_driver_transition (σ := Unit) 1 2 0 () () false false
    0 10 3 false).1 (by norm_num) (by norm_num [dtFloor])
  simpa using h

/-- C5: when a rejection halves the trial dt below the absolute floor
`1e-38`, the run aborts; the VisIt and ParaView checkpoint saves (when
enabled) are emitted before the abort event, which is last.  Whenever the
halved dt stays at or above the floor, this path never aborts. -/
theorem C5_dt_floor_abort {σ : Type} (dtEst dt tOld : ℚ) (SOld STrial : σ)
    (visit paraview : Bool) (steps maxTsteps ti : ℕ) (lastStep : Bool) :
    (dtEst < dt → dt * (1 / 2) < dtFloor →
      driverControl false dtEst dt tOld SOld STrial visit paraview steps
          maxTsteps ti lastStep =
        StepOutcome.aborted (abortEvents visit paraview) ∧
      (abortEvents visit paraview).getLast? = some Ev.abortRun ∧
      (visit = true → Ev.saveVisit ∈ abortEvents visit paraview) ∧
      (paraview = true → Ev.saveParaview ∈ abortEvents visit paraview)) ∧
    (dtFloor ≤ dt * (1 / 2) → ∀ meshChanged : Bool,
      (driverControl meshChanged dtEst dt tOld SOld STrial visit paraview
        steps maxTsteps ti lastStep).isAborted = false) := by
  constructor
  · intro h1 h2
    refine ⟨?_, ?_, ?_, ?_⟩
    · simp only [driverControl, Bool.false_eq_true, if_false, if_pos h1,
        if_pos h2]
    · cases visit <;> cases paraview <;> simp [abortEvents]
    · intro hv; cases paraview <;> simp [abortEvents, hv]
    · intro hp; cases visit <;> simp [abortEvents, hp]
  · intro h2 meshChanged
    have h3 : ¬ dt * (1 / 2) < dtFloor := not_lt.mpr h2
    cases meshChanged
    · simp only [driverControl, Bool.false_eq_true, if_false]
      split_ifs <;> rfl
    · simp [driverControl, StepOutcome.isAborted]

/-- C5 witness: a rejection at `dt = 10⁻³⁹` with both checkpoint writers
enabled flushes VisIt then ParaView, then aborts. -/
theorem C5_dt_floor_abort_witness :
    driverControl (σ := Unit) false 0 (1 / 10 ^ 39) 0 () () true true
        0 10 3 false =
      StepOutcome.aborted
        [Ev.saveVisit, Ev.saveParaview, Ev.abortRun] := by
  have h := ((C5_dt_floor_abort (σ := Unit) 0 (1 / 10 ^ 39) 0 () () true true
    0 10 3 false).1 (by norm_num) (by norm_num [dtFloor])).1
  simpa [abortEvents] using h

/-! ## Helper lemmas on the stable-dt fold -/

/-- If every determinant of a batch is nonnegative, the negative-detJ flag
is off. -/
lemma batchHasNegDetJ_eq_false {batch : List QPoint}
    (h : ∀ p ∈ batch, 0 ≤ p.detJ) : batchHasNegDetJ batch = false := by
  simp only [batchHasNegDetJ, List.any_eq_false, decide_eq_true_eq]
  exact fun p hp => not_lt.mpr (h p hp)

/-- A point update keeps the estimate nonnegative when the CFL factor is
nonnegative. -/
lemma pointDtUpdate_nonneg (cfl order : ℚ) (nb : Bool) {est : ℚ}
    (hc : 0 ≤ cfl) (he : 0 ≤ est) (p : QPoint) :
    0 ≤ pointDtUpdate cfl order nb est p := by
  unfold pointDtUpdate
  split_ifs with h1 h2
  · exact le_refl 0
  · exact le_min he (mul_nonneg hc (one_div_nonneg.mpr h2.le))
  · exact he

/-- The zero estimate is absorbing for point updates. -/
lemma foldl_pointDtUpdate_zero (cfl order : ℚ) (nb : Bool) (hc : 0 ≤ cfl)
    (l : List QPoint) : l.foldl (pointDtUpdate cfl order nb) 0 = 0 := by
  induction l with
  | nil => rfl
  | cons p ps ih =>
    have h0 : pointDtUpdate cfl order nb 0 p = 0 := by
      unfold pointDtUpdate
      split_ifs with h1 h2
      · rfl
      · exact min_eq_left (mul_nonneg hc (one_div_nonneg.mpr h2.le))
      · rfl
    rw [List.foldl_cons, h0, ih]

/-- A batch update keeps the estimate nonnegative. -/
lemma batchDtUpdate_nonneg (cfl order : ℚ) {est : ℚ} (hc : 0 ≤ cfl)
    (he : 0 ≤ est) (b : List QPoint) : 0 ≤ batchDtUpdate cfl order est b := by
  unfold batchDtUpdate
  generalize batchHasNegDetJ b = nb
  induction b generalizing est with
  | nil => exact he
  | cons p ps ih =>
    exact ih (pointDtUpdate_nonneg cfl order nb hc he p)

/-- A batch update maps the zero estimate to zero. -/
lemma batchDtUpdate_zero (cfl order : ℚ) (hc : 0 ≤ cfl) (b : List QPoint) :
    batchDtUpdate cfl order 0 b = 0 :=
  foldl_pointDtUpdate_zero cfl order _ hc b

/-- A batch containing a negative-determinant point forces the estimate to
zero, whatever its incoming value. -/
lemma batchDtUpdate_neg_eq_zero (cfl order est : ℚ) (hc : 0 ≤ cfl)
    {b : List QPoint} {p : QPoint} (hp : p ∈ b) (hneg : p.detJ < 0) :
    batchDtUpdate cfl order est b = 0 := by
  have hflag : batchHasNegDetJ b = true := by
    simp only [batchHasNegDetJ, List.any_eq_true, decide_eq_true_eq]
    exact ⟨p, hp, hneg⟩
  unfold batchDtUpdate
  rw [hflag]
  cases b with
  | nil => cases hp
  | cons q qs =>
    rw [List.foldl_cons]
    have h0 : pointDtUpdate cfl order true est q = 0 := rfl
    rw [h0, foldl_pointDtUpdate_zero cfl order true hc qs]

/-- A rank estimate stays nonnegative. -/
lemma rankDtEstimate_nonneg (cfl order : ℚ) {init : ℚ} (hc : 0 ≤ cfl)
    (hi : 0 ≤ init) (batches : List (List QPoint)) :
    0 ≤ rankDtEstimate cfl order init batches := by
  unfold rankDtEstimate
  induction batches generalizing init with
  | nil => exact hi
  | cons b bs ih => exact ih (batchDtUpdate_nonneg cfl order hc hi b)

/-- The zero estimate is absorbing for whole batches. -/
lemma rankDtEstimate_zero (cfl order : ℚ) (hc : 0 ≤ cfl)
    (batches : List (List QPoint)) :
    rankDtEstimate cfl order 0 batches = 0 := by
  unfold rankDtEstimate
  induction batches with
  | nil => rfl
  | cons b bs ih => rw [List.foldl_cons, batchDtUpdate_zero cfl order hc b, ih]

/-- A rank holding a negative-determinant point ends with the zero
estimate. -/
lemma rankDtEstimate_neg_eq_zero (cfl order init : ℚ) (hc : 0 ≤ cfl)
    {batches : List (List QPoint)} {b : List QPoint} {p : QPoint}
    (hb : b ∈ batches) (hp : p ∈ b) (hneg : p.detJ < 0) :
    rankDtEstimate cfl order init batches = 0 := by
  obtain ⟨s, t, rfl⟩ := List.append_of_mem hb
  unfold rankDtEstimate
  rw [List.foldl_append, List.foldl_cons,
    batchDtUpdate_neg_eq_zero cfl order _ hc hp hneg]
  exact rankDtEstimate_zero cfl order hc t

/-- Membership in `allPoints`. -/
lemma mem_allPoints {ranks : List Rank} {p : QPoint} :
    p ∈ allPoints ranks ↔ ∃ r ∈ ranks, p ∈ r.batches.flatten := by
  unfold allPoints
  constructor
  · intro hp
    obtain ⟨l, hl, hpl⟩ := List.mem_flatten.mp hp
    obtain ⟨r, hr, rfl⟩ := List.mem_map.mp hl
    exact ⟨r, hr, hpl⟩
  · rintro ⟨r, hr, hp⟩
    exact List.mem_flatten.mpr
      ⟨r.batches.flatten, List.mem_map_of_mem _ hr, hp⟩

/-- The MPI minimum is below every rank value and equals one of them. -/
lemma GetTimeStepEstimate_le_and_mem (cfl order : ℚ) (ranks : List Rank)
    (hne : ranks ≠ []) :
    (∀ r ∈ ranks, GetTimeStepEstimate cfl order ranks ≤
      rankDtEstimate cfl order r.init r.batches) ∧
    (∃ r ∈ ranks, GetTimeStepEstimate cfl order ranks =
      rankDtEstimate cfl order r.init r.batches) := by
  cases ranks with
  | nil => exact absurd rfl hne
  | cons r0 rs =>
    have hval : GetTimeStepEstimate cfl order (r0 :: rs) =
        (rs.map (fun r => rankDtEstimate cfl order r.init r.batches)).foldl
          min (rankDtEstimate cfl order r0.init r0.batches) := by
      rfl
    constructor
    · intro r hr
      rcases List.mem_cons.mp hr with h | h
      · subst h
        rw [hval]
        exact foldl_min_le_init _ _
      · rw [hval]
        exact foldl_min_le_mem _ (List.mem_map_of_mem _ h)
    · rw [hval]
      rcases foldl_min_init_or_mem
        (rs.map (fun r => rankDtEstimate cfl order r.init r.batches))
        (rankDtEstimate cfl order r0.init r0.batches) with h | h
      · exact ⟨r0, List.mem_cons_self r0 rs, h⟩
      · obtain ⟨r, hr, heq⟩ := List.mem_map.mp h
        exact ⟨r, List.mem_cons_of_mem r0 hr, heq.symm⟩

/-- The MPI minimum is nonnegative when the CFL factor and all initial
running estimates are. -/
lemma GetTimeStepEstimate_nonneg (cfl order : ℚ) (ranks : List Rank)
    (hc : 0 ≤ cfl) (hinit : ∀ r ∈ ranks, 0 ≤ r.init) :
    0 ≤ GetTimeStepEstimate cfl order ranks := by
  cases ranks with
  | nil => exact le_refl 0
  | cons r0 rs =>
    have h0 : 0 ≤ rankDtEstimate cfl order r0.init r0.batches :=
      rankDtEstimate_nonneg cfl order hc
        (hinit r0 (List.mem_cons_self r0 rs)) r0.batches
    refine le_foldl_min h0 ?_
    intro b hb
    obtain ⟨r, hr, rfl⟩ := List.mem_map.mp hb
    exact rankDtEstimate_nonneg cfl order hc
      (hinit r (List.mem_cons_of_mem r0 hr)) r.batches

/-! ## C3: inverted elements and the stable-dt estimate -/

/-- C3 counterexample: the claim says a non-positive determinant forces the
estimate to exactly zero so the driver necessarily rejects.  The code tests
`min_detJ < 0.0` strictly: at a quadrature point with determinant exactly
zero (non-positive) the estimate is not forced to zero — it ends at the
ordinary bound 1 — and with `dt = 1/2` the driver accepts the step. -/
theorem C3_nonpositive_detJ_counterexample :
    ({ detJ := 0, weight := 1, rho0DetJ0w := 1, soundSpeed := 1,
       viscCoeff := 0, sv := 1 } : QPoint).detJ ≤ 0 ∧
    GetTimeStepEstimate 1 1
      [{ init := 5,
         batches := [[{ detJ := 0, weight := 1, rho0DetJ0w := 1,
                        soundSpeed := 1, viscCoeff := 0, sv := 1 }]] }] = 1 ∧
    (1 : ℚ) ≠ 0 ∧
    (driverControl (σ := Unit) false 1 (1 / 2) 0 () () false false
      0 10 3 false).isAccepted = true := by
  refine ⟨by norm_num, ?_, by norm_num, ?_⟩
  · norm_num [GetTimeStepEstimate, rankDtEstimate, batchDtUpdate,
      batchHasNegDetJ, pointDtUpdate, invDt, dtBound, hMin, rhoAt, min_def]
  · norm_num [driverControl, dtFloor, StepOutcome.isAccepted]

/-- C3 amended: a strictly negative Jacobian determinant at any quadrature
point forces the global stable-dt estimate to exactly zero (given a
nonnegative CFL factor and nonnegative initial running estimates), and the
driver then rejects any positive trial step; a determinant of exactly zero
does not trigger the forcing. -/
theorem C3_negative_detJ_forces_zero (cfl order : ℚ) (ranks : List Rank)
    (hc : 0 ≤ cfl) (hinit : ∀ r ∈ ranks, 0 ≤ r.init)
    (hneg : ∃ r ∈ ranks, ∃ b ∈ r.batches, ∃ p ∈ b, p.detJ < 0) :
    GetTimeStepEstimate cfl order ranks = 0 ∧
    ∀ {σ : Type} (dt tOld : ℚ) (SOld STrial : σ) (visit paraview : Bool)
      (steps maxTsteps ti : ℕ) (lastStep : Bool), 0 < dt →
      (driverControl false (GetTimeStepEstimate cfl order ranks) dt tOld SOld
        STrial visit paraview steps maxTsteps ti lastStep).isAccepted
        = false := by
  obtain ⟨r, hr, b, hb, p, hp, hdet⟩ := hneg
  have hrzero : rankDtEstimate cfl order r.init r.batches = 0 :=
    rankDtEstimate_neg_eq_zero cfl order r.init hc hb hp hdet
  have hne : ranks ≠ [] := by
    intro h; subst h; cases hr
  have hle := (GetTimeStepEstimate_le_and_mem cfl order ranks hne).1 r hr
  rw [hrzero] at hle
  have hge := GetTimeStepEstimate_nonneg cfl order ranks hc hinit
  have hzero : GetTimeStepEstimate cfl order ranks = 0 := le_antisymm hle hge
  refine ⟨hzero, ?_⟩
  intro σ dt tOld SOld STrial visit paraview steps maxTsteps ti lastStep hdt
  rw [hzero]
  simp only [driverControl, Bool.false_eq_true, if_false, if_pos hdt]
  split_ifs <;> rfl

/-- C3 witness: a single rank holding one quadrature point with
determinant `-1` ends with the global estimate exactly zero. -/
theorem C3_negative_detJ_forces_zero_witness :
    GetTimeStepEstimate 1 1
      [{ init := 5,
         batches := [[{ detJ := -1, weight := 1, rho0DetJ0w := 1,
                        soundSpeed := 1, viscCoeff := 0, sv := 1 }]] }]
      = 0 :=
  (C3_negative_detJ_forces_zero 1 1 _ (by norm_num) (by simp)
    ⟨_, List.mem_singleton.mpr rfl,
     _, List.mem_singleton.mpr rfl,
     _, List.mem_singleton.mpr rfl, by norm_num⟩).1

/-! ## C4: the stable-dt formula and the global minimum -/

/-- When every inverse-rate of a list is positive, the fold of guarded
point updates with the negative flag off is a min fold over the bounds. -/
lemma foldl_pointDtUpdate_false_eq (cfl order : ℚ) (l : List QPoint) :
    ∀ est, (∀ p ∈ l, 0 < invDt order p) →
      l.foldl (pointDtUpdate cfl order false) est =
        (l.map (dtBound cfl order)).foldl min est := by
  induction l with
  | nil => intro est _; rfl
  | cons p ps ih =>
    intro est h
    rw [List.foldl_cons, List.map_cons, List.foldl_cons]
    have hstep : pointDtUpdate cfl order false est p =
        min est (dtBound cfl order p) := by
      unfold pointDtUpdate
      rw [if_neg (by simp), if_pos (h p (List.mem_cons_self p ps))]
    rw [hstep]
    exact ih _ (fun q hq => h q (List.mem_cons_of_mem p hq))

/-- When no determinant of a batch is negative and every inverse-rate is
positive, a batch update is a min fold over the point bounds. -/
lemma batchDtUpdate_eq_foldl_min (cfl order est : ℚ) (b : List QPoint)
    (hd : ∀ p ∈ b, 0 ≤ p.detJ) (hi : ∀ p ∈ b, 0 < invDt order p) :
    batchDtUpdate cfl order est b =
      (b.map (dtBound cfl order)).foldl min est := by
  unfold batchDtUpdate
  rw [batchHasNegDetJ_eq_false hd]
  exact foldl_pointDtUpdate_false_eq cfl order b est hi

/-- Under the same hypotheses a rank estimate is a min fold over all point
bounds of the rank. -/
lemma rankDtEstimate_eq_foldl_min (cfl order : ℚ)
    (batches : List (List QPoint)) :
    ∀ init, (∀ p ∈ batches.flatten, 0 ≤ p.detJ) →
      (∀ p ∈ batches.flatten, 0 < invDt order p) →
      rankDtEstimate cfl order init batches =
        ((batches.flatten).map (dtBound cfl order)).foldl min init := by
  induction batches with
  | nil => intro init _ _; rfl
  | cons b bs ih =>
    intro init hd hi
    have hsub1 : ∀ q ∈ b, q ∈ (b :: bs).flatten := fun q hq =>
      List.mem_flatten.mpr ⟨b, List.mem_cons_self b bs, hq⟩
    have hsub2 : ∀ q ∈ bs.flatten, q ∈ (b :: bs).flatten := by
      intro q hq
      obtain ⟨l, hl, hql⟩ := List.mem_flatten.mp hq
      exact List.mem_flatten.mpr ⟨l, List.mem_cons_of_mem b hl, hql⟩
    have hstep : rankDtEstimate cfl order init (b :: bs) =
        rankDtEstimate cfl order (batchDtUpdate cfl order init b) bs := rfl
    rw [hstep, ih _ (fun q hq => hd q (hsub2 q hq))
      (fun q hq => hi q (hsub2 q hq)),
      batchDtUpdate_eq_foldl_min cfl order init b
        (fun q hq => hd q (hsub1 q hq)) (fun q hq => hi q (hsub1 q hq)),
      List.flatten_cons, List.map_append, List.foldl_append]

/-- C4: at every quadrature point with positive density and positive
inverse-rate the local bound equals
`CFL / (sound_speed / h_min + 2.5 viscosity / (density h_min²))` with
`h_min` the smallest singular value of the Jacobian over the polynomial
order, and the value of `GetTimeStepEstimate` is the minimum of this bound
over all quadrature points of all ranks (the per-rank running minima being
fresh, i.e. started at a value at least every bound). -/
theorem C4_stable_dt_formula (cfl order : ℚ) (ranks : List Rank)
    (hne : ranks ≠ [])
    (hpt : ∀ p ∈ allPoints ranks, 0 ≤ p.detJ ∧ 0 < rhoAt p ∧
      0 < invDt order p)
    (hinit : ∀ r ∈ ranks, ∀ p ∈ allPoints ranks,
      dtBound cfl order p ≤ r.init)
    (hptne : allPoints ranks ≠ []) :
    (∀ p ∈ allPoints ranks, dtBound cfl order p =
      cfl / (p.soundSpeed / hMin order p +
        (5 / 2) * p.viscCoeff / (rhoAt p * hMin order p ^ 2))) ∧
    (∀ p ∈ allPoints ranks,
      GetTimeStepEstimate cfl order ranks ≤ dtBound cfl order p) ∧
    (∃ p ∈ allPoints ranks,
      GetTimeStepEstimate cfl order ranks = dtBound cfl order p) := by
  have hrank : ∀ r ∈ ranks, rankDtEstimate cfl order r.init r.batches =
      ((r.batches.flatten).map (dtBound cfl order)).foldl min r.init := by
    intro r hr
    refine rankDtEstimate_eq_foldl_min cfl order r.batches r.init ?_ ?_
    · exact fun q hq => (hpt q (mem_allPoints.mpr ⟨r, hr, hq⟩)).1
    · exact fun q hq => (hpt q (mem_allPoints.mpr ⟨r, hr, hq⟩)).2.2
  have hle : ∀ p ∈ allPoints ranks,
      GetTimeStepEstimate cfl order ranks ≤ dtBound cfl order p := by
    intro p hp
    obtain ⟨r, hr, hpr⟩ := mem_allPoints.mp hp
    have h1 := (GetTimeStepEstimate_le_and_mem cfl order ranks hne).1 r hr
    rw [hrank r hr] at h1
    exact le_trans h1 (foldl_min_le_mem _ (List.mem_map_of_mem _ hpr))
  refine ⟨?_, hle, ?_⟩
  · intro p _
    unfold dtBound invDt
    rw [mul_one_div]
    congr 1
    rw [pow_two]
    ring
  · obtain ⟨r, hr, hval⟩ :=
      (GetTimeStepEstimate_le_and_mem cfl order ranks hne).2
    rw [hrank r hr] at hval
    rcases foldl_min_init_or_mem
      ((r.batches.flatten).map (dtBound cfl order)) r.init with h | h
    · obtain ⟨p0, hp0⟩ := List.exists_mem_of_ne_nil _ hptne
      refine ⟨p0, hp0, le_antisymm (hle p0 hp0) ?_⟩
      rw [hval, h]
      exact hinit r hr p0 hp0
    · obtain ⟨p, hpmem, hpeq⟩ := List.mem_map.mp h
      exact ⟨p, mem_allPoints.mpr ⟨r, hr, hpmem⟩, by rw [hval, hpeq]⟩

/-- C4 witness: a single rank with a single well-formed quadrature point;
the global estimate is bounded by the point bound. -/
theorem C4_stable_dt_formula_witness :
    GetTimeStepEstimate 1 1
        [{ init := 100,
           batches := [[{ detJ := 1, weight := 1, rho0DetJ0w := 1,
                          soundSpeed := 1, viscCoeff := 0, sv := 1 }]] }] ≤
      dtBound 1 1
        { detJ := 1, weight := 1, rho0DetJ0w := 1, soundSpeed := 1,
          viscCoeff := 0, sv := 1 } := by
  refine (C4_stable_dt_formula 1 1 _ (by simp) ?_ ?_ ?_).2.1 _ ?_
  · intro p hp
    simp only [allPoints, List.map_cons, List.map_nil, List.flatten_cons,
      List.flatten_nil, List.append_nil, List.mem_singleton] at hp
    subst hp
    norm_num [rhoAt, invDt, hMin]
  · intro r hr p hp
    simp only [List.mem_singleton] at hr
    subst hr
    simp only [allPoints, List.map_cons, List.map_nil, List.flatten_cons,
      List.flatten_nil, List.append_nil, List.mem_singleton] at hp
    subst hp
    norm_num [dtBound, invDt, hMin, rhoAt]
  · simp [allPoints]
  · simp [allPoints]

/-! ## C9: graceful degradation of the stable-dt bound -/

/-- C9: at a point with zero sound speed and zero viscosity coefficient the
inverse-rate is zero, so the guarded update leaves the running minimum
unchanged (no division by the zero inverse-rate is performed); when only
the viscosity term vanishes the inverse-rate reduces to the elastic
wave-speed term and the bound to `cfl * h_min / sound_speed`. -/
theorem C9_zero_speed_graceful (cfl order est : ℚ) (p : QPoint) :
    (p.soundSpeed = 0 → p.viscCoeff = 0 →
      invDt order p = 0 ∧ pointDtUpdate cfl order false est p = est) ∧
    (p.viscCoeff = 0 →
      invDt order p = p.soundSpeed / hMin order p ∧
      dtBound cfl order p = cfl * (hMin order p / p.soundSpeed)) := by
  constructor
  · intro h1 h2
    have hzero : invDt order p = 0 := by
      unfold invDt
      rw [h1, h2]
      norm_num
    refine ⟨hzero, ?_⟩
    unfold pointDtUpdate
    rw [if_neg (by simp), if_neg (by rw [hzero]; exact lt_irrefl 0)]
  · intro h2
    have helast : invDt order p = p.soundSpeed / hMin order p := by
      unfold invDt
      rw [h2]
      norm_num
    refine ⟨helast, ?_⟩
    unfold dtBound
    rw [helast, one_div_div]

/-- C9 witness: a concrete point with zero sound speed and zero viscosity
leaves the running minimum `7` unchanged. -/
theorem C9_zero_speed_graceful_witness :
    invDt 1 { detJ := 1, weight := 1, rho0DetJ0w := 1, soundSpeed := 0,
              viscCoeff := 0, sv := 1 } = 0 ∧
    pointDtUpdate 3 1 false 7
      { detJ := 1, weight := 1, rho0DetJ0w := 1, soundSpeed := 0,
        viscCoeff := 0, sv := 1 } = 7 :=
  (C9_zero_speed_graceful 3 1 7 _).1 rfl rfl

/-! ## C6: the cache-freshness protocol -/

/-- C6: `UpdateQuadratureData` returns immediately when the cache is
current; each sub-solve performs a refresh exactly when it finds the cache
stale (so within one evaluation only the first of them refreshes); `Mult`
performs at most one refresh, marks the cache stale at its end, and hence
the next `Mult` performs exactly one refresh. -/
theorem C6_cache_freshness (s : QState) :
    (s.qdataIsCurrent = true → UpdateQuadratureDataQ s = s) ∧
    (SolveVelocityQ s).refreshes =
      s.refreshes + (if s.qdataIsCurrent then 0 else 1) ∧
    (SolveEnergyQ s).refreshes =
      s.refreshes + (if s.qdataIsCurrent then 0 else 1) ∧
    (SolveStressQ s).refreshes =
      s.refreshes + (if s.qdataIsCurrent then 0 else 1) ∧
    (MultQ s).refreshes = s.refreshes + (if s.qdataIsCurrent then 0 else 1) ∧
    (MultQ s).qdataIsCurrent = false ∧
    (MultQ (MultQ s)).refreshes = (MultQ s).refreshes + 1 := by
  obtain ⟨c, f, n⟩ := s
  cases c <;> cases f <;>
    simp [UpdateQuadratureDataQ, AssembleForceQ, SolveVelocityQ,
      SolveEnergyQ, SolveStressQ, MultQ]

/-- C6 witness: on a fresh cache the kernel refresh is skipped and the
flag state is untouched. -/
theorem C6_cache_freshness_witness :
    UpdateQuadratureDataQ
        { qdataIsCurrent := true, forcematIsAssembled := true,
          refreshes := 5 } =
      { qdataIsCurrent := true, forcematIsAssembled := true,
        refreshes := 5 } :=
  (C6_cache_freshness _).1 rfl

/-! ## C7: the stress-rate and force-stress tensors -/

/-- Modelled from the claim text, for comparison only: the deviatoric rate
`2·mu·E - (2·mu/dim)·tr(E)·I` with `E` the strain rate. -/
def specDeviatoricRate (n : ℕ) (mu : ℚ) (sgradV : Mat n) : Mat n :=
  matSub (matSmul (2 * mu) (srateOf sgradV))
    (matSmul (2 * mu * matTrace (srateOf sgradV) / (n : ℚ)) (idMat n))

/-- Modelled from the claim text, for comparison only: the force-assembly
stress `-p·I + visc·(velocity gradient)`. -/
def specForceStress (n : ℕ) (p viscCoeff : ℚ) (sgradV : Mat n) : Mat n :=
  matAdd (matSmul (-p) (idMat n)) (matSmul viscCoeff sgradV)

/-- C7 counterexample: at a quadrature point with `lambda = mu = 1`, unit
scaling, velocity gradient the identity and zero previous stress, the code
writes `4·I` to the stress-rate cache while the claimed deviatoric formula
gives `0`: the isotropic term is added with coefficient `2·lambda/dim`,
not subtracted with `2·mu/dim`.  Furthermore with pressure `1` the
force-assembly stress of the code is `0`, not `-p·I + visc·sgrad_v`. -/
theorem C7_deviatoric_counterexample :
    faTauJinvT 2 true 1 1 1 1 1 (idMat 2) (zeroMat 2) ≠
      specDeviatoricRate 2 1 (idMat 2) ∧
    faStress 2 true 1 (zeroMat 2) (zeroMat 2) ≠
      specForceStress 2 1 1 (zeroMat 2) := by
  constructor
  · intro h
    have h00 := congrFun (congrFun h 0) 0
    norm_num [faTauJinvT, faTau0, specDeviatoricRate, matSmul, matAdd,
      matSub, matMul, matTrace, srateOf, spinOf, symmetrize, idMat,
      zeroMat, Fin.sum_univ_two] at h00
  · intro h
    have h00 := congrFun (congrFun h 0) 0
    norm_num [faStress, specForceStress, matSmul, matAdd, matSub, idMat,
      zeroMat] at h00

/-- C7 amended: entrywise, the stress-rate written to the cache by the
full-assembly path equals `rho·weight·detJ` times
`2·mu·E + (2·lambda·tr(E)/dim)·I + (sigma·spin - spin·sigma)` with
`E = (g + gᵀ)/2` the strain rate (so the isotropic part is added with
coefficient `2·lambda/dim` rather than subtracted with `2·mu/dim`, and the
Jaumann terms are included), and the force-assembly stress is
`visc·g + sigma` with no `-p·I` contribution. -/
theorem C7_stress_rate_formula (n : ℕ) (l1 l2 rho w dJ visc : ℚ)
    (g sig : Mat n) :
    (∀ i j, faTauJinvT n true l1 l2 rho w dJ g sig i j =
      rho * w * dJ * (2 * l2 * ((g i j + g j i) / 2) +
        (2 * l1 * (∑ k, g k k) / (n : ℚ)) * (if i = j then 1 else 0) +
        ((∑ k, sig i k * (g k j - (g k j + g j k) / 2)) -
         (∑ k, (g i k - (g i k + g k i) / 2) * sig k j)))) ∧
    (∀ i j, faStress n true visc g sig i j = visc * g i j + sig i j) := by
  constructor
  · intro i j
    have htr : (∑ k, (g k k + g k k) / 2) = ∑ k : Fin n, g k k :=
      Finset.sum_congr rfl (fun k _ => by ring)
    simp only [faTauJinvT, faTau0, matSmul, matAdd, matSub, matMul,
      matTrace, srateOf, spinOf, symmetrize, idMat, if_pos, htr]
    ring
  · intro i j
    simp only [faStress, matAdd, matSmul, zeroMat, if_pos]
    ring

/-! ## C8: neutralization of the spin-coupling correction -/

/-- C8 counterexample: in the full-assembly path, at a point whose velocity
gradient is a pure spin (zero strain rate) and whose previous stress is
`diag(1, -1)`, the value written to the stress-rate-flux cache is not
zero — it is exactly the spin-coupling output, which on this input is the
whole of the written tensor (the written value with the previous stress
zeroed is the zero matrix). -/
theorem C8_spin_written_counterexample :
    faTauJinvT 2 true 1 1 1 1 1
      (fun i j => if i = j then 0 else if (i : ℕ) = 0 then 1 else -1)
      (fun i j => if i = j then (if (i : ℕ) = 0 then 1 else -1) else 0) ≠
      zeroMat 2 ∧
    faTauJinvT 2 true 1 1 1 1 1
      (fun i j => if i = j then 0 else if (i : ℕ) = 0 then 1 else -1)
      (zeroMat 2) = zeroMat 2 := by
  constructor
  · intro h
    have h01 := congrFun (congrFun h 0) 1
    norm_num [faTauJinvT, faTau0, matSmul, matAdd, matSub, matMul,
      matTrace, srateOf, spinOf, symmetrize, idMat, zeroMat,
      Fin.sum_univ_two] at h01
  · funext i j
    fin_cases i <;> fin_cases j <;>
      norm_num [faTauJinvT, faTau0, matSmul, matAdd, matSub, matMul,
        matTrace, srateOf, spinOf, symmetrize, idMat, zeroMat,
        Fin.sum_univ_two]

/-- C8 amended: the zeroing happens in the partial-assembly kernel, whose
stress-rate-flux write-back is the literal zero for every element and
quadrature point (its compiled stress-rate mathematics carries no
spin-coupling term); in the full-assembly path the Jaumann spin-coupling
terms are written back to the cache un-zeroed: the written tensor is the
spin-free value plus the scaled coupling `sigma·spin - spin·sigma`. -/
theorem C8_spin_coupling_neutralized (n : ℕ) (uv : Bool)
    (R w dJ l1 l2 rho : ℚ) (g sig : Mat n) :
    paTauJinvT n uv R w dJ g = zeroMat n ∧
    faTauJinvT n true l1 l2 rho w dJ g sig =
      matAdd (faTauJinvT n true l1 l2 rho w dJ g (zeroMat n))
        (matSmul (rho * w * dJ)
          (matSub (matMul sig (spinOf g)) (matMul (spinOf g) sig))) := by
  refine ⟨rfl, ?_⟩
  funext i j
  simp only [faTauJinvT, faTau0, matAdd, matSub, matSmul, matMul, matTrace,
    srateOf, spinOf, symmetrize, idMat, zeroMat, if_pos, zero_mul, mul_zero,
    Finset.sum_const_zero]
  ring

/-! ## C10: the damping term is identically zero -/

/-- The damping vector is a list of zeros of the common length. -/
lemma Getdamping_eq_replicate (v damping : List ℚ) :
    Getdamping v damping =
      List.replicate (min v.length damping.length) 0 := by
  induction v generalizing damping with
  | nil => simp [Getdamping]
  | cons a as ih =>
    cases damping with
    | nil => simp [Getdamping]
    | cons b bs =>
      have hz : (if (0 : ℚ) ≤ a then 0.00 * |b| else -0.00 * |b|) = 0 := by
        split_ifs <;> norm_num
      simp only [Getdamping, List.zipWith_cons_cons, List.length_cons,
        Nat.succ_min_succ, List.replicate_succ, hz]
      exact congrArg (List.cons 0) (ih bs)

/-- Subtracting a zero list entrywise is the identity. -/
lemma zipWith_sub_replicate_zero (l : List ℚ) :
    List.zipWith (fun a b => a - b) l (List.replicate l.length 0) = l := by
  induction l with
  | nil => rfl
  | cons a as ih =>
    simp only [List.length_cons, List.replicate_succ,
      List.zipWith_cons_cons, sub_zero, ih]

/-- C10: `Getdamping` produces only zeros — the magnitude is scaled by the
constant `0.00` whichever sign the velocity picks — so (outside the
acceleration-source case) the velocity right-hand side actually solved is
exactly minus the assembled force operator applied to the ones vector. -/
theorem C10_damping_identically_zero (v damping : List ℚ) (st : ℤ)
    (f accel : List ℚ) :
    (∀ x ∈ Getdamping v damping, x = 0) ∧
    (v.length = f.length → st ≠ 2 →
      SolveVelocityRhs st f v accel = f.map (fun x => -x)) := by
  constructor
  · intro x hx
    rw [Getdamping_eq_replicate] at hx
    exact List.eq_of_mem_replicate hx
  · intro hlen hst
    simp only [SolveVelocityRhs, if_neg hst]
    rw [Getdamping_eq_replicate]
    have h1 : min v.length ((f.map fun x => -x).length) =
        (f.map fun x => -x).length := by
      simp [List.length_map, hlen]
    rw [h1, zipWith_sub_replicate_zero]

/-- C10 witness: with force vector `[2, 5]` and velocities `[1, -1]` the
assembled right-hand side is exactly `[-2, -5]`. -/
theorem C10_damping_identically_zero_witness :
    SolveVelocityRhs 0 [2, 5] [1, -1] [] = [-2, -5] := by
  have h := (C10_damping_identically_zero [1, -1] [3, 4] 0 [2, 5] []).2
    rfl (by decide)
  simpa using h

end Laghost
